import Mathlib

/-!
Verification of the SealMessage decrypt-and-retrieve pipeline.

Definitions are shallow embeddings of the TypeScript source:
* `detectMimeType`, `WALRUS_AGGREGATORS`, `downloadAndDecrypt` from the
  utils module (src/unnamed/part_000);
* the session-credential resolution, timestamp sort and object-URL
  bookkeeping of `decryptChat` from src/src/AllowlistView.tsx;
* the encrypt request of `handleSend` from src/src/EncryptAndUpload.tsx.

Network, storage, the Seal SDK and the wallet are modelled as oracles in
an `Env` record; the embedding records the observable trace (setError
calls, fetchKeys requests, decrypt attempts, created and revoked object
URLs, the published file list).
-/

namespace SealMessage

/-! ### Content sniffer (`detectMimeType`, utils lines 18–63) -/

/-- One byte of a buffer; bytes are modelled as `Nat` (values 0–255). -/
abbrev Byte := Nat

/-- The loop body test of `detectMimeType`'s text detection: a byte keeps
`isText` true unless `byte < 0x09 || (byte > 0x0d && byte < 0x20) || byte > 0x7e`. -/
def printableByte (b : Byte) : Bool :=
  !(b < 0x09 || (0x0d < b && b < 0x20) || 0x7e < b)

/-- The value of `isText` after the sampling loop: every sampled byte is
printable. -/
def isTextSample (sample : List Byte) : Bool :=
  sample.all printableByte

/-- Leading-whitespace removal of JavaScript `String.trim`, restricted to
what `startsWith` on the trimmed string observes.  Whitespace within the
ASCII range the sample is known to lie in: 0x09–0x0d and 0x20. -/
def jsTrimStart (l : List Byte) : List Byte :=
  l.dropWhile fun b => b == 0x20 || (0x09 ≤ b && b ≤ 0x0d)

/-- `detectMimeType` from utils (src/unnamed/part_000 lines 18–63): the
`buffer.length < 4` guard is the wildcard match arm, then the magic-byte
prefixes are checked on `buffer[0..3]`, then printable-ASCII text
detection runs on the first 1024 bytes with a structured-text (`\x7b` or
`[` after trim) refinement. -/
def detectMimeType (buffer : List Byte) : String :=
  match buffer with
  | b0 :: b1 :: b2 :: b3 :: rest =>
    if b0 == 0xff && b1 == 0xd8 && b2 == 0xff then "image/jpeg"
    else if b0 == 0x89 && b1 == 0x50 && b2 == 0x4e && b3 == 0x47 then "image/png"
    else if b0 == 0x47 && b1 == 0x49 && b2 == 0x46 && b3 == 0x38 then "image/gif"
    else if b0 == 0x25 && b1 == 0x50 && b2 == 0x44 && b3 == 0x46 then "application/pdf"
    else if b0 == 0x50 && b1 == 0x4b then "application/zip"
    else
      let sample := (b0 :: b1 :: b2 :: b3 :: rest).take 1024
      if isTextSample sample then
        if (jsTrimStart sample).headD 0 == 0x7b || (jsTrimStart sample).headD 0 == 0x5b then
          "application/json"
        else "text/plain"
      else "application/octet-stream"
  | _ => "application/octet-stream"

/-- The seven bytes of the JSON text `\x7b"a":1\x7d`. -/
def jsonSampleBytes : List Byte := [0x7b, 0x22, 0x61, 0x22, 0x3a, 0x31, 0x7d]

/-! ### Pipeline model (`downloadAndDecrypt`, utils lines 66–200)

The network, the Seal SDK (`EncryptedObject.parse`, `fetchKeys`,
`decrypt`) and the transaction builder are oracles in an `Env` record;
everything is deterministic in the oracle. -/

/-- An encrypted blob as downloaded from an aggregator. -/
abbrev Blob := List Byte

/-- Outcome of one `sealClient.fetchKeys` call: success, `NoAccessError`
(denied) or any other thrown error (unavailable). -/
inductive FetchKeysOutcome
  | ok
  | denied
  | unavailable
deriving DecidableEq

/-- Outcome of one `sealClient.decrypt` call. -/
inductive DecryptOutcome
  | ok (bytes : List Byte)
  | noAccess
  | failed
deriving DecidableEq

/-- Oracles for the external collaborators of `downloadAndDecrypt`:
`fetch baseUrl blobId` is one aggregator GET (`none` covers both a
non-ok status and a thrown/timeout error), `parse` is
`EncryptedObject.parse(...).id` (`none` = throws), `fetchKeys` and
`decrypt` are the Seal SDK calls. -/
structure Env where
  fetch : String → String → Option Blob
  parse : Blob → Option String
  fetchKeys : List String → FetchKeysOutcome
  decrypt : Blob → DecryptOutcome

/-- The aggregator mirror list from utils lines 66–73. -/
def WALRUS_AGGREGATORS : List String :=
  ["https://aggregator.walrus.space",
   "https://walrus-aggregator.staketab.org",
   "https://walrus.redundex.com/aggregator",
   "https://walrus.nodes.guru/aggregator",
   "https://walrus.banansen.dev/aggregator",
   "https://walrus.everstake.one/aggregator"]

/-- The per-blob mirror loop (utils lines 92–107): try each aggregator in
order, return the first successful payload, `none` once all have failed. -/
def tryAggregators (env : Env) (blobId : String) : Option Blob :=
  WALRUS_AGGREGATORS.findSome? fun baseUrl => env.fetch baseUrl blobId

/-- Step 1 of `downloadAndDecrypt` (lines 90–111): download every blob id
independently and keep the non-null results, in order. -/
def validDownloads (env : Env) (blobIds : List String) : List Blob :=
  (blobIds.map (tryAggregators env)).filterMap id

/-- Recursion worker for the `for (let i = 0; i < n; i += 10)` batching
of step 2: peel a slice of at most 10 blobs per step.  The fuel argument
only makes the recursion structural; `chunks10` supplies enough fuel for
it never to run out. -/
def chunks10Go : Nat → List Blob → List (List Blob)
  | _, [] => []
  | 0, _ :: _ => []
  | fuel + 1, b :: rest => ((b :: rest).take 10) :: chunks10Go fuel ((b :: rest).drop 10)

/-- The `for (let i = 0; i < n; i += 10)` batching of step 2: slices of
at most 10 blobs. -/
def chunks10 (l : List Blob) : List (List Blob) :=
  chunks10Go l.length l

/-- One `sealClient.fetchKeys` request as issued by step 2 (lines
137–142): the batch ids and the hard-coded threshold. -/
structure FetchKeysReq where
  ids : List String
  threshold : Nat
deriving DecidableEq

/-- Error strings of `downloadAndDecrypt`, verbatim from the source. -/
def errDownload : String := "Cannot retrieve files from Walrus. They may have expired."

/-- Error shown when `fetchKeys` throws `NoAccessError` (line 147). -/
def errNoAccessKeys : String := "You do not have access to decrypt these files."

/-- Error shown when step 2 throws anything else — including the
`Corrupted or invalid encrypted data` parse error, which the catch at
lines 144–152 maps to this generic message (line 148). -/
def errFetchKeys : String := "Failed to fetch decryption keys. Please try again."

/-- Error shown when step 3 throws `NoAccessError` (line 195). -/
def errDecryptNoAccess : String := "Decryption failed: no access to keys."

/-- Error shown when step 3 throws anything else (line 196). -/
def errDecrypt : String := "Failed to decrypt one or more files."

/-- The id-collection loop of step 2 (lines 121–130): parse each blob of
the batch; the first parse failure throws, aborting the whole batch. -/
def parseBatchIds (env : Env) : List Blob → Option (List String)
  | [] => some []
  | b :: rest =>
    match env.parse b with
    | none => none
    | some i =>
      match parseBatchIds env rest with
      | none => none
      | some is => some (i :: is)

/-- Result of the step-2 loop: the trace of `fetchKeys` requests actually
issued, and on failure the error message set by the catch block. -/
inductive Step2Result
  | ok (trace : List FetchKeysReq)
  | fail (trace : List FetchKeysReq) (msg : String)
deriving DecidableEq

/-- Step 2 of `downloadAndDecrypt` (lines 117–152): process batches
sequentially; a parse failure or a failed `fetchKeys` call aborts the
loop through the shared try/catch, with no retry of any batch. -/
def step2 (env : Env) : List (List Blob) → Step2Result
  | [] => .ok []
  | batch :: rest =>
    match parseBatchIds env batch with
    | none => .fail [] errFetchKeys
    | some ids =>
      match env.fetchKeys ids with
      | .ok =>
        match step2 env rest with
        | .ok tr => .ok (⟨ids, 2⟩ :: tr)
        | .fail tr msg => .fail (⟨ids, 2⟩ :: tr) msg
      | .denied => .fail [⟨ids, 2⟩] errNoAccessKeys
      | .unavailable => .fail [⟨ids, 2⟩] errFetchKeys

/-- One decrypted file: the object URL handle (modelled as a `Nat`
allocated from a counter) and the sniffed MIME type. -/
structure DecryptedFile where
  url : Nat
  mimeType : String
deriving DecidableEq

/-- Result of the step-3 loop: on success the files in order plus the
decrypt-call trace; on failure the object URLs already created (which the
catch revokes) and the error message. -/
inductive Step3Result
  | ok (files : List DecryptedFile) (decTrace : List Blob)
  | fail (created : List Nat) (decTrace : List Blob) (msg : String)
deriving DecidableEq

/-- Step 3 of `downloadAndDecrypt` (lines 154–199): decrypt each blob in
order; any parse or decrypt failure throws, aborting the loop through the
shared try/catch. -/
def step3 (env : Env) : List Blob → Nat → Step3Result
  | [], _ => .ok [] []
  | b :: rest, nextUrl =>
    match env.parse b with
    | none => .fail [] [] errDecrypt
    | some _fullId =>
      match env.decrypt b with
      | .ok bytes =>
        match step3 env rest (nextUrl + 1) with
        | .ok fs dtr => .ok (⟨nextUrl, detectMimeType bytes⟩ :: fs) (b :: dtr)
        | .fail cr dtr msg => .fail (nextUrl :: cr) (b :: dtr) msg
      | .noAccess => .fail [] [b] errDecryptNoAccess
      | .failed => .fail [] [b] errDecrypt

/-- The observable outcome of one `downloadAndDecrypt` call: the
`setError` invocations in order (the call always begins with
`setError(null)`, line 86), the argument of `setDecryptedFiles` if it was
called, whether the dialog was opened, the `fetchKeys` request trace, the
`decrypt` call trace, and the object URLs created and revoked. -/
structure RunResult where
  errorCalls : List (Option String)
  published : Option (List DecryptedFile)
  dialogOpened : Bool
  fetchTrace : List FetchKeysReq
  decryptTrace : List Blob
  createdUrls : List Nat
  revokedUrls : List Nat
deriving DecidableEq

/-- `downloadAndDecrypt` (utils lines 75–200).  `urlBase` is the next
fresh object-URL handle. -/
def downloadAndDecrypt (env : Env) (blobIds : List String) (urlBase : Nat) : RunResult :=
  let valid := validDownloads env blobIds
  if valid.isEmpty then
    ⟨[none, some errDownload], none, false, [], [], [], []⟩
  else
    match step2 env (chunks10 valid) with
    | .fail tr msg => ⟨[none, some msg], none, false, tr, [], [], []⟩
    | .ok tr =>
      match step3 env valid urlBase with
      | .ok files dtr =>
        if files.isEmpty then ⟨[none], none, false, tr, dtr, [], []⟩
        else ⟨[none], some files, true, tr, dtr, files.map (·.url), []⟩
      | .fail created dtr msg =>
        ⟨[none, some msg], none, false, tr, dtr, created, created⟩

/-! ### Session-credential resolution (`decryptChat`, AllowlistView lines 155–214) -/

/-- The observable fields of an imported `SessionKey`: the holder address
it was created for and whether `isExpired()` holds at the time of the
call. -/
structure SessionKeyM where
  address : String
  expired : Bool
deriving DecidableEq

/-- A persisted cache entry under `sessionKey_<packageId>_<suiAddress>`:
`importOk` models whether `SessionKey.import` succeeds on it (the catch
at lines 174–177). -/
structure CacheEntry where
  importOk : Bool
  key : SessionKeyM
deriving DecidableEq

/-- Result of the credential-resolution phase of `decryptChat`:
the session key it continues with (`none` means the function returned
early), the number of interactive signing prompts issued
(`signPersonalMessage` calls), the cache contents afterwards, and
whether a signing error was reported. -/
structure ResolveResult where
  key : Option SessionKeyM
  prompts : Nat
  cache : Option CacheEntry
  signError : Bool
deriving DecidableEq

/-- The cached-credential validity test of lines 165–169: import
succeeded, `!isExpired()`, and `getAddress() === suiAddress`. -/
def cacheValid (e : CacheEntry) (suiAddress : String) : Bool :=
  e.importOk && !e.key.expired && (e.key.address == suiAddress)

/-- The credential-resolution phase of `decryptChat` (AllowlistView lines
155–214): use a valid cached credential without interaction; otherwise
clear the cache and, on a background tick (`isAutoPolling`), return
immediately with no prompt; on an interactive call, create a fresh key
and prompt for one signature (`signOk` models the wallet accepting). -/
def resolveSessionKey (cache : Option CacheEntry) (suiAddress : String)
    (isAutoPolling : Bool) (signOk : Bool) : ResolveResult :=
  let checked : Option SessionKeyM × Option CacheEntry :=
    match cache with
    | none => (none, none)
    | some e => if cacheValid e suiAddress then (some e.key, some e) else (none, none)
  match checked.1 with
  | some k => ⟨some k, 0, checked.2, false⟩
  | none =>
    if isAutoPolling then ⟨none, 0, checked.2, false⟩
    else if signOk then
      let k : SessionKeyM := ⟨suiAddress, false⟩
      ⟨some k, 1, some ⟨true, k⟩, false⟩
    else ⟨none, 1, checked.2, true⟩

/-- A background polling tick: `startPolling` (AllowlistView lines
327–332) schedules `decryptChat(chatId, true)`, i.e. the auto-polling
path.  `ranPipeline` records whether the tick reached
`downloadAndDecrypt` (it does iff credential resolution produced a key). -/
structure TickOutcome where
  prompts : Nat
  ranPipeline : Bool
deriving DecidableEq

/-- One background tick's credential phase: `decryptChat(chatId, true)`. -/
def backgroundTick (cache : Option CacheEntry) (suiAddress : String)
    (signOk : Bool) : TickOutcome :=
  let r := resolveSessionKey cache suiAddress true signOk
  ⟨r.prompts, r.key.isSome⟩

/-- The `setError` callback that `decryptChat` passes to
`downloadAndDecrypt` (AllowlistView lines 227–232) starts with
`await set(cacheKey, null)`, so any `setError` invocation during the run
clears the cached session credential. -/
def cacheAfterRun (cache : Option CacheEntry) (r : RunResult) : Option CacheEntry :=
  if r.errorCalls.isEmpty then cache else none

/-! ### Key-server configuration and encryption (C10) -/

/-- The two key-server object ids configured in both `Feeds`
(AllowlistView lines 64–67) and `WalrusUpload` (EncryptAndUpload lines
48–51). -/
def serverObjectIds : List String :=
  ["0x73d05d62c18d9374e3ea529e8e0ed6161da1a141a94d3f76ae3fe4e99356db75",
   "0xf5d14a81a982144ae441cd7d64b09027f116a468bd36e7eca494f750591623c8"]

/-- One `client.encrypt` request as issued by `handleSend`. -/
structure EncryptReq where
  threshold : Nat
  packageId : String
  id : String
  data : List Byte
deriving DecidableEq

/-- The encrypt call of `handleSend` (EncryptAndUpload lines 166–173):
the threshold is the literal 2, whatever the caller-supplied package id,
message id and payload are. -/
def handleSendEncryptReq (packageId id : String) (data : List Byte) : EncryptReq :=
  ⟨2, packageId, id, data⟩

/-! ### Concrete environments for counterexamples and witnesses -/

/-- Environment where blob `b1` downloads and decrypts fine but blob `b2`
fails to parse as an `EncryptedObject`. -/
def envParseBad : Env where
  fetch := fun _ blobId =>
    if blobId = "b1" then some [1] else if blobId = "b2" then some [2] else none
  parse := fun b => if b = [1] then some "id1" else none
  fetchKeys := fun _ => .ok
  decrypt := fun b => if b = [1] then .ok [104, 105] else .failed

/-- Environment where the single blob downloads and parses but every
`fetchKeys` call fails transiently (non-`NoAccessError`). -/
def envUnavailable : Env where
  fetch := fun _ blobId => if blobId = "b1" then some [1] else none
  parse := fun b => if b = [1] then some "id1" else none
  fetchKeys := fun _ => .unavailable
  decrypt := fun _ => .failed

/-- Environment where the single blob downloads and parses but the
verifier denies the key batch (`NoAccessError`). -/
def envDenied : Env where
  fetch := fun _ blobId => if blobId = "b1" then some [1] else none
  parse := fun b => if b = [1] then some "id1" else none
  fetchKeys := fun _ => .denied
  decrypt := fun _ => .failed

/-- Environment where everything succeeds for blobs `b1`, `b2` and
nothing else downloads. -/
def envHappy : Env where
  fetch := fun _ blobId =>
    if blobId = "b1" then some [1] else if blobId = "b2" then some [2] else none
  parse := fun b => if b = [1] then some "id1" else if b = [2] then some "id2" else none
  fetchKeys := fun _ => .ok
  decrypt := fun b =>
    if b = [1] then .ok [104] else if b = [2] then .ok [105] else .failed

/-! ### Timestamp ordering of decrypted items (AllowlistView lines 277–287) -/

/-- A decrypted item as `decryptChat` sees it after the content fetch:
its object URL and the optional ordering timestamp extracted from a
leading `[...]` marker (`Date.getTime()`, modelled as `Int`). -/
structure DecFile where
  url : Nat
  timestamp : Option Int
deriving DecidableEq

/-- The comparator passed to `sort` at AllowlistView lines 277–282: both
undated compare equal, an undated item sorts after anything dated, two
dated items compare by `getTime()` difference. -/
def tsCompare (a b : DecFile) : Int :=
  match a.timestamp, b.timestamp with
  | none, none => 0
  | none, some _ => 1
  | some _, none => -1
  | some ta, some tb => ta - tb

/-- The order underlying the comparator: non-positive comparison. -/
def tsLe (a b : DecFile) : Bool := tsCompare a b ≤ 0

/-- `[...updatedFiles].sort(cmp)`: JavaScript `Array.prototype.sort` is
stable, so it is modelled by stable merge sort under `tsCompare · · ≤ 0`. -/
def sortDecryptedFiles (files : List DecFile) : List DecFile :=
  files.mergeSort tsLe

/-! ### Object-URL bookkeeping across recover calls (`blobUrlsRef`,
AllowlistView lines 93 and 244–250) -/

/-- The handle-tracking state of the `Feeds` component between
`decryptChat` calls: the URLs held in `blobUrlsRef`, every created and
not yet revoked object URL, the item count of the most recent call that
published, and the next fresh URL handle. -/
structure ViewState where
  tracked : List Nat
  outstanding : List Nat
  lastSuccessCount : Option Nat
  nextUrl : Nat
deriving DecidableEq

/-- Effect of one recover (`decryptChat` → `downloadAndDecrypt`) call on
the handle state.  During the run `downloadAndDecrypt` creates URLs and
revokes them itself if it aborts; if it publishes, the
`setDecryptedFiles` callback (AllowlistView lines 244–250) revokes every
URL in `blobUrlsRef`, clears it, and then tracks the new files' URLs. -/
def applyRun (st : ViewState) (env : Env) (blobIds : List String) : ViewState :=
  let r := downloadAndDecrypt env blobIds st.nextUrl
  let mid := (st.outstanding ++ r.createdUrls).filter fun u => decide (u ∉ r.revokedUrls)
  match r.published with
  | some files =>
    ⟨files.map (·.url),
     mid.filter fun u => decide (u ∉ st.tracked),
     some files.length,
     st.nextUrl + r.createdUrls.length⟩
  | none =>
    ⟨st.tracked, mid, st.lastSuccessCount, st.nextUrl + r.createdUrls.length⟩

/-- Well-formedness of the handle state: the outstanding handles are
exactly the tracked ones, all below the allocation counter, and their
count is the item count of the most recent successful call (zero if no
call has succeeded yet). -/
def viewWF (st : ViewState) : Prop :=
  st.outstanding = st.tracked ∧
  (∀ u ∈ st.tracked, u < st.nextUrl) ∧
  (match st.lastSuccessCount with
   | some n => st.tracked.length = n
   | none => st.tracked = [])

end SealMessage

namespace SealMessage

/-! ### Theorems for claim C7 -/

/-- Take of a cons at a positive literal count. -/
theorem take_cons_pos (a : Byte) (l : List Byte) :
    (a :: l).take 1024 = a :: l.take 1023 := by
  have h : (1024 : Nat) = 1023 + 1 := rfl
  rw [h, List.take_succ_cons]

/-- Claim C7, counterexample: the claim says every buffer beginning with
bytes FF D8 FF classifies as JPEG, but `detectMimeType` returns
`application/octet-stream` for any buffer shorter than 4 bytes, so the
3-byte buffer `[0xff, 0xd8, 0xff]` — which does begin with FF D8 FF — is
classified as unknown binary, not JPEG. -/
theorem detectMimeType_three_byte_jpeg_prefix_not_jpeg :
    detectMimeType [0xff, 0xd8, 0xff] = "application/octet-stream" ∧
    detectMimeType [0xff, 0xd8, 0xff] ≠ "image/jpeg" := by
  refine ⟨rfl, ?_⟩
  decide

/-- Claim C7 (amended): `detectMimeType` is a total function that checks
magic prefixes first and falls back to a printable-ASCII check on the
first 1024 bytes; every buffer of length at least 4 beginning with
FF D8 FF classifies as JPEG; every buffer beginning with the text
`\x7b"a":1\x7d` whose first min(1024, length) bytes are all printable classifies
as `application/json`; and every buffer of non-printable bytes matching
no magic prefix classifies as unknown binary. -/
theorem detectMimeType_classification :
    (∀ buffer : List Byte, 4 ≤ buffer.length →
      buffer.take 3 = [0xff, 0xd8, 0xff] → detectMimeType buffer = "image/jpeg") ∧
    (∀ buffer : List Byte, buffer.take 7 = jsonSampleBytes →
      isTextSample (buffer.take 1024) = true → detectMimeType buffer = "application/json") ∧
    (∀ buffer : List Byte,
      (∀ b ∈ buffer, printableByte b = false) →
      buffer.take 3 ≠ [0xff, 0xd8, 0xff] →
      buffer.take 4 ≠ [0x89, 0x50, 0x4e, 0x47] →
      buffer.take 4 ≠ [0x47, 0x49, 0x46, 0x38] →
      buffer.take 4 ≠ [0x25, 0x50, 0x44, 0x46] →
      buffer.take 2 ≠ [0x50, 0x4b] →
      detectMimeType buffer = "application/octet-stream") := by
  refine ⟨?_, ?_, ?_⟩
  · intro buffer hlen htake
    match buffer, hlen with
    | b0 :: b1 :: b2 :: b3 :: rest, _ =>
      simp only [List.take, List.cons.injEq, and_true] at htake
      obtain ⟨h0, h1, h2⟩ := htake
      subst h0; subst h1; subst h2
      simp [detectMimeType]
  · intro buffer htake htext
    match buffer with
    | b0 :: b1 :: b2 :: b3 :: b4 :: b5 :: b6 :: rest =>
      simp only [List.take, List.cons.injEq, jsonSampleBytes, and_true] at htake
      obtain ⟨h0, h1, h2, h3, h4, h5, h6⟩ := htake
      subst h0; subst h1; subst h2; subst h3; subst h4; subst h5; subst h6
      rw [detectMimeType]
      simp only [Nat.reduceBEq, Bool.false_and, Bool.and_false, if_neg (by decide : ¬ (false = true))]
      rw [if_pos htext, take_cons_pos]
      simp [jsTrimStart, List.dropWhile_cons]
  · intro buffer hnp h1 h2 h3 h4 h5
    match buffer with
    | [] => rfl
    | [a] => rfl
    | [a, b] => rfl
    | [a, b, c] => rfl
    | b0 :: b1 :: b2 :: b3 :: rest =>
      rw [detectMimeType]
      have hb0 : printableByte b0 = false := hnp b0 (by simp)
      have hsample : isTextSample ((b0 :: b1 :: b2 :: b3 :: rest).take 1024) = false := by
        rw [take_cons_pos]
        simp only [isTextSample, List.all_cons, hb0, Bool.false_and]
      have g1 : (b0 == 0xff && b1 == 0xd8 && b2 == 0xff) = false := by
        by_contra h
        rw [Bool.not_eq_false, Bool.and_eq_true, Bool.and_eq_true] at h
        obtain ⟨⟨e0, e1⟩, e2⟩ := h
        exact h1 (by simp_all [Nat.beq_eq_true_eq] )
      have g2 : (b0 == 0x89 && b1 == 0x50 && b2 == 0x4e && b3 == 0x47) = false := by
        by_contra h
        rw [Bool.not_eq_false, Bool.and_eq_true, Bool.and_eq_true, Bool.and_eq_true] at h
        obtain ⟨⟨⟨e0, e1⟩, e2⟩, e3⟩ := h
        exact h2 (by simp_all [Nat.beq_eq_true_eq])
      have g3 : (b0 == 0x47 && b1 == 0x49 && b2 == 0x46 && b3 == 0x38) = false := by
        by_contra h
        rw [Bool.not_eq_false, Bool.and_eq_true, Bool.and_eq_true, Bool.and_eq_true] at h
        obtain ⟨⟨⟨e0, e1⟩, e2⟩, e3⟩ := h
        exact h3 (by simp_all [Nat.beq_eq_true_eq])
      have g4 : (b0 == 0x25 && b1 == 0x50 && b2 == 0x44 && b3 == 0x46) = false := by
        by_contra h
        rw [Bool.not_eq_false, Bool.and_eq_true, Bool.and_eq_true, Bool.and_eq_true] at h
        obtain ⟨⟨⟨e0, e1⟩, e2⟩, e3⟩ := h
        exact h4 (by simp_all [Nat.beq_eq_true_eq])
      have g5 : (b0 == 0x50 && b1 == 0x4b) = false := by
        by_contra h
        rw [Bool.not_eq_false, Bool.and_eq_true] at h
        obtain ⟨e0, e1⟩ := h
        exact h5 (by simp_all [Nat.beq_eq_true_eq])
      rw [if_neg (by simp [g1]), if_neg (by simp [g2]), if_neg (by simp [g3]),
        if_neg (by simp [g4]), if_neg (by simp [g5])]
      simp only [hsample]
      rfl

/-- Witness for `detectMimeType_classification`: instantiating each
conjunct at a concrete buffer. -/
theorem detectMimeType_classification_witness :
    detectMimeType [0xff, 0xd8, 0xff, 0xe0] = "image/jpeg" ∧
    detectMimeType jsonSampleBytes = "application/json" ∧
    detectMimeType [0x00, 0x01, 0x02, 0x03] = "application/octet-stream" := by
  refine ⟨?_, ?_, ?_⟩
  · exact detectMimeType_classification.1 [0xff, 0xd8, 0xff, 0xe0] (by decide) (by decide)
  · exact detectMimeType_classification.2.1 jsonSampleBytes (by decide) (by decide)
  · exact detectMimeType_classification.2.2 [0x00, 0x01, 0x02, 0x03]
      (by decide) (by decide) (by decide) (by decide) (by decide) (by decide)

/-! ### Pipeline lemmas -/

/-- Concatenating the slices with enough fuel restores the list. -/
theorem chunks10Go_flatten :
    ∀ (fuel : Nat) (l : List Blob), l.length ≤ fuel →
      (chunks10Go fuel l).flatten = l := by
  intro fuel
  induction fuel with
  | zero =>
    intro l hl
    cases l with
    | nil => rfl
    | cons b rest => simp at hl
  | succ n ih =>
    intro l hl
    cases l with
    | nil => rfl
    | cons b rest =>
      rw [chunks10Go, List.flatten_cons, ih, List.take_append_drop]
      simp only [List.length_drop, List.length_cons]
      simp only [List.length_cons] at hl
      omega

/-- The batches of step 2 cover exactly the valid downloads. -/
theorem chunks10_flatten (l : List Blob) : (chunks10 l).flatten = l :=
  chunks10Go_flatten l.length l (Nat.le_refl _)

/-- If step 2 succeeds, every batch was submitted exactly once, every
request carried threshold 2 and every `fetchKeys` call returned ok. -/
theorem step2_ok_spec (env : Env) :
    ∀ chs tr, step2 env chs = .ok tr →
      tr.length = chs.length ∧
      ∀ req ∈ tr, req.threshold = 2 ∧ env.fetchKeys req.ids = .ok := by
  intro chs
  induction chs with
  | nil =>
    intro tr h
    rw [step2] at h
    cases h
    simp
  | cons batch rest ih =>
    intro tr h
    rw [step2] at h
    cases hp : parseBatchIds env batch with
    | none => simp only [hp] at h; cases h
    | some ids =>
      simp only [hp] at h
      cases hk : env.fetchKeys ids with
      | ok =>
        simp only [hk] at h
        cases hs : step2 env rest with
        | ok tr' =>
          simp only [hs] at h
          cases h
          obtain ⟨hlen, hall⟩ := ih tr' hs
          refine ⟨by simp [hlen], ?_⟩
          intro req hreq
          rcases List.mem_cons.mp hreq with h1 | h2
          · subst h1; exact ⟨rfl, hk⟩
          · exact hall req h2
        | fail tr' msg => simp only [hs] at h; cases h
      | denied => simp only [hk] at h; cases h
      | unavailable => simp only [hk] at h; cases h

/-- If step 2 fails: at most one `fetchKeys` call per batch was made,
all requests carry threshold 2, every call but the last returned ok
(so no batch is ever re-submitted), a denied call forces the
no-access error message, and any failing call is the last one made. -/
theorem step2_fail_spec (env : Env) :
    ∀ chs tr msg, step2 env chs = .fail tr msg →
      tr.length ≤ chs.length ∧
      (∀ req ∈ tr, req.threshold = 2) ∧
      (∀ req ∈ tr.dropLast, env.fetchKeys req.ids = .ok) ∧
      (∀ req ∈ tr, env.fetchKeys req.ids = .denied → msg = errNoAccessKeys) ∧
      (∀ req ∈ tr, env.fetchKeys req.ids ≠ .ok → tr.getLast? = some req) := by
  intro chs
  induction chs with
  | nil =>
    intro tr msg h
    rw [step2] at h
    simp at h
  | cons batch rest ih =>
    intro tr msg h
    rw [step2] at h
    cases hp : parseBatchIds env batch with
    | none =>
      simp only [hp] at h
      cases h
      simp
    | some ids =>
      simp only [hp] at h
      cases hk : env.fetchKeys ids with
      | ok =>
        simp only [hk] at h
        cases hs : step2 env rest with
        | ok tr' => simp only [hs] at h; cases h
        | fail tr' msg' =>
          simp only [hs] at h
          cases h
          obtain ⟨h1, h2, h3, h4, h5⟩ := ih tr' msg hs
          refine ⟨by simpa using Nat.succ_le_succ h1, ?_, ?_, ?_, ?_⟩
          · intro req hreq
            rcases List.mem_cons.mp hreq with e | e
            · subst e; rfl
            · exact h2 req e
          · intro req hreq
            cases tr' with
            | nil => simp at hreq
            | cons a l =>
              rw [List.dropLast_cons₂] at hreq
              rcases List.mem_cons.mp hreq with e | e
              · subst e; exact hk
              · exact h3 req e
          · intro req hreq hden
            rcases List.mem_cons.mp hreq with e | e
            · subst e; rw [hk] at hden; exact absurd hden (by simp)
            · exact h4 req e hden
          · intro req hreq hne
            rcases List.mem_cons.mp hreq with e | e
            · subst e; exact absurd hk hne
            · cases tr' with
              | nil => simp at e
              | cons a l =>
                rw [List.getLast?_cons_cons]
                exact h5 req e hne
      | denied =>
        simp only [hk] at h
        cases h
        refine ⟨by simp, ?_, by simp, ?_, ?_⟩
        · intro req hreq
          rcases List.mem_cons.mp hreq with e | e
          · subst e; rfl
          · simp at e
        · intro req hreq hden; rfl
        · intro req hreq hne
          rcases List.mem_cons.mp hreq with e | e
          · subst e; rfl
          · simp at e
      | unavailable =>
        simp only [hk] at h
        cases h
        refine ⟨by simp, ?_, by simp, ?_, ?_⟩
        · intro req hreq
          rcases List.mem_cons.mp hreq with e | e
          · subst e; rfl
          · simp at e
        · intro req hreq hden
          rcases List.mem_cons.mp hreq with e | e
          · subst e; rw [hk] at hden; exact absurd hden (by simp)
          · simp at e
        · intro req hreq hne
          rcases List.mem_cons.mp hreq with e | e
          · subst e; rfl
          · simp at e

/-- If step 3 succeeds it decrypted every blob, produced one file per
blob, every blob parsed and decrypted, and the object URLs are the
consecutive handles starting at the base. -/
theorem step3_ok_spec (env : Env) :
    ∀ blobs n files dtr, step3 env blobs n = .ok files dtr →
      dtr = blobs ∧ files.length = blobs.length ∧
      (∀ b ∈ blobs, (env.parse b).isSome ∧ ∃ bytes, env.decrypt b = .ok bytes) ∧
      files.map (·.url) = List.range' n files.length := by
  intro blobs
  induction blobs with
  | nil =>
    intro n files dtr h
    rw [step3] at h
    cases h
    simp
  | cons b rest ih =>
    intro n files dtr h
    rw [step3] at h
    cases hp : env.parse b with
    | none => simp only [hp] at h; cases h
    | some fullId =>
      rw [hp] at h
      cases hd : env.decrypt b with
      | ok bytes =>
        simp only [hd] at h
        cases hs : step3 env rest (n + 1) with
        | ok fs dtr' =>
          simp only [hs] at h
          cases h
          obtain ⟨h1, h2, h3, h4⟩ := ih (n + 1) fs dtr' hs
          refine ⟨by rw [h1], by simp [h2], ?_, ?_⟩
          · intro x hx
            rcases List.mem_cons.mp hx with e | e
            · subst e; exact ⟨by simp [hp], ⟨bytes, hd⟩⟩
            · exact h3 x e
          · simp only [List.map_cons, List.length_cons, h4, List.range'_succ]
        | fail cr dtr' msg => simp only [hs] at h; cases h
      | noAccess => simp only [hd] at h; cases h
      | failed => simp only [hd] at h; cases h

/-- If step 3 fails, the URLs it had created are the consecutive handles
starting at the base (they are exactly the ones the catch revokes). -/
theorem step3_fail_spec (env : Env) :
    ∀ blobs n created dtr msg, step3 env blobs n = .fail created dtr msg →
      created = List.range' n created.length := by
  intro blobs
  induction blobs with
  | nil =>
    intro n created dtr msg h
    rw [step3] at h
    simp at h
  | cons b rest ih =>
    intro n created dtr msg h
    rw [step3] at h
    cases hp : env.parse b with
    | none => simp only [hp] at h; cases h; rfl
    | some fullId =>
      rw [hp] at h
      cases hd : env.decrypt b with
      | ok bytes =>
        simp only [hd] at h
        cases hs : step3 env rest (n + 1) with
        | ok fs dtr' => simp only [hs] at h; cases h
        | fail cr dtr' msg' =>
          simp only [hs] at h
          cases h
          have := ih (n + 1) cr dtr' msg hs
          simp only [List.length_cons, List.range'_succ]
          rw [← this]
      | noAccess => simp only [hd] at h; cases h; rfl
      | failed => simp only [hd] at h; cases h; rfl

/-- If every blob of every batch parses, step 2's parse loop succeeds. -/
theorem parseBatchIds_isSome (env : Env) :
    ∀ batch, (∀ b ∈ batch, (env.parse b).isSome) →
      ∃ ids, parseBatchIds env batch = some ids := by
  intro batch
  induction batch with
  | nil => intro _; exact ⟨[], rfl⟩
  | cons b rest ih =>
    intro h
    obtain ⟨i, hi⟩ := Option.isSome_iff_exists.mp (h b (by simp))
    obtain ⟨ids, hids⟩ := ih fun x hx => h x (by simp [hx])
    exact ⟨i :: ids, by simp only [parseBatchIds, hi, hids]⟩

/-- If every blob parses and every `fetchKeys` call succeeds, step 2
succeeds. -/
theorem step2_all_ok (env : Env) (hk : ∀ ids, env.fetchKeys ids = .ok) :
    ∀ chs, (∀ b ∈ chs.flatten, (env.parse b).isSome) →
      ∃ tr, step2 env chs = .ok tr := by
  intro chs
  induction chs with
  | nil => intro _; exact ⟨[], rfl⟩
  | cons batch rest ih =>
    intro h
    obtain ⟨ids, hids⟩ := parseBatchIds_isSome env batch
      fun b hb => h b (by simp [List.flatten_cons, hb])
    obtain ⟨tr, htr⟩ := ih fun b hb => h b (by simp [List.flatten_cons, hb])
    exact ⟨⟨ids, 2⟩ :: tr, by simp only [step2, hids, hk ids, htr]⟩

/-- If every blob parses and decrypts, step 3 succeeds. -/
theorem step3_all_ok (env : Env) :
    ∀ blobs n, (∀ b ∈ blobs, (env.parse b).isSome) →
      (∀ b ∈ blobs, ∃ bytes, env.decrypt b = .ok bytes) →
      ∃ files dtr, step3 env blobs n = .ok files dtr := by
  intro blobs
  induction blobs with
  | nil => intro n _ _; exact ⟨[], [], rfl⟩
  | cons b rest ih =>
    intro n hp hd
    obtain ⟨i, hi⟩ := Option.isSome_iff_exists.mp (hp b (by simp))
    obtain ⟨bytes, hb⟩ := hd b (by simp)
    obtain ⟨fs, dtr, hs⟩ := ih (n + 1) (fun x hx => hp x (by simp [hx]))
      (fun x hx => hd x (by simp [hx]))
    exact ⟨⟨n, detectMimeType bytes⟩ :: fs, b :: dtr, by simp only [step3, hi, hb, hs]⟩

/-- Case characterization of `downloadAndDecrypt`: exactly one of the
five control-flow exits applies, and the result record is determined by
the exit taken. -/
theorem downloadAndDecrypt_cases (env : Env) (blobIds : List String) (urlBase : Nat) :
    ((validDownloads env blobIds).isEmpty = true ∧
      downloadAndDecrypt env blobIds urlBase =
        ⟨[none, some errDownload], none, false, [], [], [], []⟩) ∨
    (∃ tr msg, (validDownloads env blobIds).isEmpty = false ∧
      step2 env (chunks10 (validDownloads env blobIds)) = .fail tr msg ∧
      downloadAndDecrypt env blobIds urlBase =
        ⟨[none, some msg], none, false, tr, [], [], []⟩) ∨
    (∃ tr files dtr, (validDownloads env blobIds).isEmpty = false ∧
      step2 env (chunks10 (validDownloads env blobIds)) = .ok tr ∧
      step3 env (validDownloads env blobIds) urlBase = .ok files dtr ∧
      files.isEmpty = true ∧
      downloadAndDecrypt env blobIds urlBase =
        ⟨[none], none, false, tr, dtr, [], []⟩) ∨
    (∃ tr files dtr, (validDownloads env blobIds).isEmpty = false ∧
      step2 env (chunks10 (validDownloads env blobIds)) = .ok tr ∧
      step3 env (validDownloads env blobIds) urlBase = .ok files dtr ∧
      files.isEmpty = false ∧
      downloadAndDecrypt env blobIds urlBase =
        ⟨[none], some files, true, tr, dtr, files.map (·.url), []⟩) ∨
    (∃ tr created dtr msg, (validDownloads env blobIds).isEmpty = false ∧
      step2 env (chunks10 (validDownloads env blobIds)) = .ok tr ∧
      step3 env (validDownloads env blobIds) urlBase = .fail created dtr msg ∧
      downloadAndDecrypt env blobIds urlBase =
        ⟨[none, some msg], none, false, tr, dtr, created, created⟩) := by
  simp only [downloadAndDecrypt]
  split
  · next hve => exact Or.inl ⟨hve, rfl⟩
  · next hve =>
    have hve' : (validDownloads env blobIds).isEmpty = false :=
      Bool.not_eq_true _ ▸ eq_false_of_ne_true hve
    split
    · next tr msg hs2 =>
      exact Or.inr (Or.inl ⟨tr, msg, hve', hs2, rfl⟩)
    · next tr hs2 =>
      split
      · next files dtr hs3 =>
        split
        · next hfe =>
          exact Or.inr (Or.inr (Or.inl ⟨tr, files, dtr, hve', hs2, hs3, hfe, rfl⟩))
        · next hfe =>
          have hfe' : files.isEmpty = false := eq_false_of_ne_true hfe
          exact Or.inr (Or.inr (Or.inr (Or.inl ⟨tr, files, dtr, hve', hs2, hs3, hfe', rfl⟩)))
      · next created dtr msg hs3 =>
        exact Or.inr (Or.inr (Or.inr (Or.inr ⟨tr, created, dtr, msg, hve', hs2, hs3, rfl⟩)))

/-! ### Theorems for claim C4 -/

/-- Claim C4: over a non-empty id list, zero successful downloads abort
the call with the all-mirrors-unreachable error and an empty `fetchKeys`
and `decrypt` trace (no credential or key work); at least one successful
download makes the pipeline proceed with exactly the successful subset
(under success of the later stages, the decrypt loop runs on precisely
the downloaded blobs and one item is published per blob); and an id whose
mirrors all fail is dropped without affecting retrieval of the other
ids. -/
theorem downloadAndDecrypt_mirror_gate (env : Env) (blobIds : List String) (urlBase : Nat) :
    (blobIds ≠ [] → validDownloads env blobIds = [] →
      downloadAndDecrypt env blobIds urlBase =
        ⟨[none, some errDownload], none, false, [], [], [], []⟩) ∧
    ((∀ ids, env.fetchKeys ids = .ok) →
      (∀ b ∈ validDownloads env blobIds, (env.parse b).isSome) →
      (∀ b ∈ validDownloads env blobIds, ∃ bytes, env.decrypt b = .ok bytes) →
      validDownloads env blobIds ≠ [] →
      (downloadAndDecrypt env blobIds urlBase).decryptTrace = validDownloads env blobIds ∧
      ∃ files, (downloadAndDecrypt env blobIds urlBase).published = some files ∧
        files.length = (validDownloads env blobIds).length) ∧
    (∀ pre post badId, tryAggregators env badId = none →
      validDownloads env (pre ++ badId :: post) = validDownloads env (pre ++ post)) := by
  refine ⟨?_, ?_, ?_⟩
  · intro _ hv
    simp [downloadAndDecrypt, hv]
  · intro hk hp hd hne
    obtain ⟨tr, htr⟩ := step2_all_ok env hk (chunks10 (validDownloads env blobIds))
      (by rw [chunks10_flatten]; exact hp)
    obtain ⟨files, dtr, hs3⟩ := step3_all_ok env (validDownloads env blobIds) urlBase hp hd
    obtain ⟨hdtr, hlen, -, -⟩ := step3_ok_spec env _ _ _ _ hs3
    have hfe : files.isEmpty = false := by
      cases hfiles : files with
      | nil =>
        exfalso
        apply hne
        rw [hfiles] at hlen
        exact (List.length_eq_zero.mp hlen.symm)
      | cons a l => rfl
    have hve : (validDownloads env blobIds).isEmpty = false := by
      cases hval : validDownloads env blobIds with
      | nil => exact absurd hval hne
      | cons a l => rfl
    refine ⟨?_, files, ?_, hlen⟩
    · simp only [downloadAndDecrypt, hve, htr, hs3, hfe]
      simpa using hdtr
    · simp only [downloadAndDecrypt, hve, htr, hs3, hfe]
      simp
  · intro pre post badId hbad
    simp [validDownloads, hbad]

/-- Witness for `downloadAndDecrypt_mirror_gate`: in `envHappy`, an
unknown id has no reachable mirror so a call on it alone aborts; a call
on the two good ids decrypts exactly both; and dropping the unknown id
from a mixed list leaves the good downloads untouched. -/
theorem downloadAndDecrypt_mirror_gate_witness :
    (downloadAndDecrypt envHappy ["bMissing"] 0 =
      ⟨[none, some errDownload], none, false, [], [], [], []⟩) ∧
    ((downloadAndDecrypt envHappy ["b1", "b2"] 0).decryptTrace =
        validDownloads envHappy ["b1", "b2"] ∧
      ∃ files, (downloadAndDecrypt envHappy ["b1", "b2"] 0).published = some files ∧
        files.length = (validDownloads envHappy ["b1", "b2"]).length) ∧
    validDownloads envHappy (["b1"] ++ "bMissing" :: ["b2"]) =
      validDownloads envHappy (["b1"] ++ ["b2"]) := by
  have hval : validDownloads envHappy ["b1", "b2"] = [[1], [2]] := by decide
  refine ⟨?_, ?_, ?_⟩
  · exact (downloadAndDecrypt_mirror_gate envHappy ["bMissing"] 0).1
      (by decide) (by decide)
  · refine (downloadAndDecrypt_mirror_gate envHappy ["b1", "b2"] 0).2.1
      (fun _ => rfl) (by decide) ?_ (by decide)
    intro b hb
    rw [hval] at hb
    rcases List.mem_cons.mp hb with e | e
    · subst e; exact ⟨[104], rfl⟩
    · rcases List.mem_cons.mp e with e' | e'
      · subst e'; exact ⟨[105], rfl⟩
      · simp at e'
  · exact (downloadAndDecrypt_mirror_gate envHappy [] 0).2.2 ["b1"] ["b2"] "bMissing"
      (by decide)

/-! ### Theorems for claim C1 -/

/-- Claim C1, counterexample: blobs `b1` and `b2` are both retrieved,
`b1` parses and decrypts, `b2` fails to parse — yet the call publishes
nothing at all (the good item is not returned) and records a single
call-level error, not a per-item failure note. -/
theorem downloadAndDecrypt_parse_failure_drops_good_item :
    (validDownloads envParseBad ["b1", "b2"]).length = 2 ∧
    envParseBad.parse [1] = some "id1" ∧
    envParseBad.decrypt [1] = .ok [104, 105] ∧
    envParseBad.parse [2] = none ∧
    (downloadAndDecrypt envParseBad ["b1", "b2"] 0).published = none ∧
    (downloadAndDecrypt envParseBad ["b1", "b2"] 0).errorCalls =
      [none, some errFetchKeys] := by
  refine ⟨rfl, rfl, rfl, rfl, rfl, rfl⟩

/-- Claim C1 (amended): a failure local to one item — a blob that fails
to parse as an `EncryptedObject`, or a per-item decryption failure —
aborts the whole `downloadAndDecrypt` call: items are published only
when every retrieved blob parses and decrypts (one published item per
retrieved blob), and on any aborted call no items are returned, a single
call-level error is recorded, and every object URL created during the
call has been revoked. -/
theorem downloadAndDecrypt_item_failure_aborts (env : Env) (blobIds : List String)
    (urlBase : Nat) :
    (∀ files, (downloadAndDecrypt env blobIds urlBase).published = some files →
      files.length = (validDownloads env blobIds).length ∧
      ∀ b ∈ validDownloads env blobIds,
        (env.parse b).isSome ∧ ∃ bytes, env.decrypt b = .ok bytes) ∧
    ((downloadAndDecrypt env blobIds urlBase).published = none →
      (downloadAndDecrypt env blobIds urlBase).revokedUrls =
        (downloadAndDecrypt env blobIds urlBase).createdUrls ∧
      ∃ msg, (downloadAndDecrypt env blobIds urlBase).errorCalls = [none, some msg]) := by
  rcases downloadAndDecrypt_cases env blobIds urlBase with
    ⟨hve, heq⟩ | ⟨tr, msg, hve, hs2, heq⟩ | ⟨tr, files, dtr, hve, hs2, hs3, hfe, heq⟩ |
    ⟨tr, files, dtr, hve, hs2, hs3, hfe, heq⟩ | ⟨tr, created, dtr, msg, hve, hs2, hs3, heq⟩
  · refine ⟨?_, ?_⟩
    · intro files hpub; rw [heq] at hpub; exact absurd hpub (by simp)
    · intro _; rw [heq]; exact ⟨rfl, errDownload, rfl⟩
  · refine ⟨?_, ?_⟩
    · intro files hpub; rw [heq] at hpub; exact absurd hpub (by simp)
    · intro _; rw [heq]; exact ⟨rfl, msg, rfl⟩
  · exfalso
    obtain ⟨-, hlen, -, -⟩ := step3_ok_spec env _ _ _ _ hs3
    have : files = [] := List.isEmpty_iff.mp hfe
    rw [this] at hlen
    have : validDownloads env blobIds = [] := List.length_eq_zero.mp hlen.symm
    rw [this] at hve
    simp at hve
  · refine ⟨?_, ?_⟩
    · intro files' hpub
      rw [heq] at hpub
      have hf : files' = files := by
        have := hpub
        simp at this
        exact this.symm
      subst hf
      obtain ⟨-, hlen, hall, -⟩ := step3_ok_spec env _ _ _ _ hs3
      exact ⟨hlen, hall⟩
    · intro hpub; rw [heq] at hpub; exact absurd hpub (by simp)
  · refine ⟨?_, ?_⟩
    · intro files hpub; rw [heq] at hpub; exact absurd hpub (by simp)
    · intro _; rw [heq]; exact ⟨rfl, msg, rfl⟩

/-- Witness for `downloadAndDecrypt_item_failure_aborts`: in the happy
environment the published file count equals the download count, and in
the parse-failure environment the aborted call revoked everything it
created and recorded one error. -/
theorem downloadAndDecrypt_item_failure_aborts_witness :
    ((downloadAndDecrypt envHappy ["b1", "b2"] 0).published =
        some [⟨0, detectMimeType [104]⟩, ⟨1, detectMimeType [105]⟩] →
      [DecryptedFile.mk 0 (detectMimeType [104]),
        DecryptedFile.mk 1 (detectMimeType [105])].length =
        (validDownloads envHappy ["b1", "b2"]).length ∧
      ∀ b ∈ validDownloads envHappy ["b1", "b2"],
        (envHappy.parse b).isSome ∧ ∃ bytes, envHappy.decrypt b = .ok bytes) ∧
    ((downloadAndDecrypt envParseBad ["b1", "b2"] 0).published = none →
      (downloadAndDecrypt envParseBad ["b1", "b2"] 0).revokedUrls =
        (downloadAndDecrypt envParseBad ["b1", "b2"] 0).createdUrls ∧
      ∃ msg, (downloadAndDecrypt envParseBad ["b1", "b2"] 0).errorCalls =
        [none, some msg]) :=
  ⟨(downloadAndDecrypt_item_failure_aborts envHappy ["b1", "b2"] 0).1 _,
   (downloadAndDecrypt_item_failure_aborts envParseBad ["b1", "b2"] 0).2⟩

/-! ### Theorems for claim C2 -/

/-- Claim C2: if any `fetchKeys` batch of the run is denied
(`NoAccessError`), the whole call fails with the no-access error, no
decrypt call is made and no item is produced or published for any id of
any batch, and the cached session credential is invalidated (the
`setError` callback of `decryptChat` clears it). -/
theorem downloadAndDecrypt_denied_aborts (env : Env) (blobIds : List String)
    (urlBase : Nat) (cache : Option CacheEntry) (req : FetchKeysReq)
    (hmem : req ∈ (downloadAndDecrypt env blobIds urlBase).fetchTrace)
    (hden : env.fetchKeys req.ids = .denied) :
    (downloadAndDecrypt env blobIds urlBase).errorCalls =
      [none, some errNoAccessKeys] ∧
    (downloadAndDecrypt env blobIds urlBase).published = none ∧
    (downloadAndDecrypt env blobIds urlBase).decryptTrace = [] ∧
    (downloadAndDecrypt env blobIds urlBase).createdUrls = [] ∧
    cacheAfterRun cache (downloadAndDecrypt env blobIds urlBase) = none := by
  rcases downloadAndDecrypt_cases env blobIds urlBase with
    ⟨hve, heq⟩ | ⟨tr, msg, hve, hs2, heq⟩ | ⟨tr, files, dtr, hve, hs2, hs3, hfe, heq⟩ |
    ⟨tr, files, dtr, hve, hs2, hs3, hfe, heq⟩ | ⟨tr, created, dtr, msg, hve, hs2, hs3, heq⟩
  · rw [heq] at hmem; simp at hmem
  · rw [heq] at hmem
    obtain ⟨-, -, -, h4, -⟩ := step2_fail_spec env _ _ _ hs2
    have hmsg : msg = errNoAccessKeys := h4 req hmem hden
    subst hmsg
    rw [heq]
    exact ⟨rfl, rfl, rfl, rfl, by simp [cacheAfterRun]⟩
  · rw [heq] at hmem
    obtain ⟨-, hall⟩ := step2_ok_spec env _ _ hs2
    have := (hall req (by simpa using hmem)).2
    rw [this] at hden
    exact absurd hden (by simp)
  · rw [heq] at hmem
    obtain ⟨-, hall⟩ := step2_ok_spec env _ _ hs2
    have := (hall req (by simpa using hmem)).2
    rw [this] at hden
    exact absurd hden (by simp)
  · rw [heq] at hmem
    obtain ⟨-, hall⟩ := step2_ok_spec env _ _ hs2
    have := (hall req (by simpa using hmem)).2
    rw [this] at hden
    exact absurd hden (by simp)

/-- Witness for `downloadAndDecrypt_denied_aborts` in the denied
environment with a cached credential present. -/
theorem downloadAndDecrypt_denied_aborts_witness :
    (downloadAndDecrypt envDenied ["b1"] 0).errorCalls =
      [none, some errNoAccessKeys] ∧
    (downloadAndDecrypt envDenied ["b1"] 0).published = none ∧
    (downloadAndDecrypt envDenied ["b1"] 0).decryptTrace = [] ∧
    (downloadAndDecrypt envDenied ["b1"] 0).createdUrls = [] ∧
    cacheAfterRun (some ⟨true, ⟨"0xholder", false⟩⟩)
      (downloadAndDecrypt envDenied ["b1"] 0) = none :=
  downloadAndDecrypt_denied_aborts envDenied ["b1"] 0
    (some ⟨true, ⟨"0xholder", false⟩⟩) ⟨["id1"], 2⟩ (by decide) rfl

/-! ### Theorems for claim C5 -/

/-- Claim C5, counterexample: with a transiently failing key server
(`unavailable`, not denied), the single batch is submitted exactly once
— the `fetchKeys` trace is one request — and the call aborts with an
error instead of re-submitting the batch a second time. -/
theorem downloadAndDecrypt_unavailable_single_attempt :
    envUnavailable.fetchKeys ["id1"] = .unavailable ∧
    (downloadAndDecrypt envUnavailable ["b1"] 0).fetchTrace = [⟨["id1"], 2⟩] ∧
    (downloadAndDecrypt envUnavailable ["b1"] 0).errorCalls =
      [none, some errFetchKeys] ∧
    (downloadAndDecrypt envUnavailable ["b1"] 0).published = none := by
  refine ⟨rfl, rfl, rfl, rfl⟩

/-- Claim C5 (amended): no key-fetch batch is ever re-submitted —
transient Unavailable included.  Each batch yields at most one
`fetchKeys` call (the trace is bounded by the batch count), every call
except possibly the final one succeeded, and a failing call — Denied or
Unavailable — is the last call made: the run aborts with an error and
publishes nothing instead of retrying. -/
theorem downloadAndDecrypt_no_retry (env : Env) (blobIds : List String) (urlBase : Nat) :
    (downloadAndDecrypt env blobIds urlBase).fetchTrace.length ≤
      (chunks10 (validDownloads env blobIds)).length ∧
    (∀ req ∈ (downloadAndDecrypt env blobIds urlBase).fetchTrace.dropLast,
      env.fetchKeys req.ids = .ok) ∧
    (∀ req ∈ (downloadAndDecrypt env blobIds urlBase).fetchTrace,
      env.fetchKeys req.ids ≠ .ok →
      (downloadAndDecrypt env blobIds urlBase).fetchTrace.getLast? = some req ∧
      (downloadAndDecrypt env blobIds urlBase).published = none ∧
      ∃ msg, (downloadAndDecrypt env blobIds urlBase).errorCalls = [none, some msg]) := by
  rcases downloadAndDecrypt_cases env blobIds urlBase with
    ⟨hve, heq⟩ | ⟨tr, msg, hve, hs2, heq⟩ | ⟨tr, files, dtr, hve, hs2, hs3, hfe, heq⟩ |
    ⟨tr, files, dtr, hve, hs2, hs3, hfe, heq⟩ | ⟨tr, created, dtr, msg, hve, hs2, hs3, heq⟩
  · rw [heq]; exact ⟨by simp, by simp, by simp⟩
  · rw [heq]
    obtain ⟨h1, -, h3, -, h5⟩ := step2_fail_spec env _ _ _ hs2
    exact ⟨h1, h3, fun req hm hne => ⟨h5 req hm hne, rfl, msg, rfl⟩⟩
  · rw [heq]
    obtain ⟨h1, hall⟩ := step2_ok_spec env _ _ hs2
    refine ⟨Nat.le_of_eq h1, fun req hm => (hall req (List.dropLast_sublist _ |>.mem hm)).2, ?_⟩
    intro req hm hne
    exact absurd (hall req hm).2 hne
  · rw [heq]
    obtain ⟨h1, hall⟩ := step2_ok_spec env _ _ hs2
    refine ⟨Nat.le_of_eq h1, fun req hm => (hall req (List.dropLast_sublist _ |>.mem hm)).2, ?_⟩
    intro req hm hne
    exact absurd (hall req hm).2 hne
  · rw [heq]
    obtain ⟨h1, hall⟩ := step2_ok_spec env _ _ hs2
    refine ⟨Nat.le_of_eq h1, fun req hm => (hall req (List.dropLast_sublist _ |>.mem hm)).2, ?_⟩
    intro req hm hne
    exact absurd (hall req hm).2 hne

/-- Witness for `downloadAndDecrypt_no_retry` at the unavailable
environment: the failing batch is the last (and only) call, and the run
aborted with an error. -/
theorem downloadAndDecrypt_no_retry_witness :
    (downloadAndDecrypt envUnavailable ["b1"] 0).fetchTrace.getLast? =
      some ⟨["id1"], 2⟩ ∧
    (downloadAndDecrypt envUnavailable ["b1"] 0).published = none ∧
    ∃ msg, (downloadAndDecrypt envUnavailable ["b1"] 0).errorCalls = [none, some msg] :=
  (downloadAndDecrypt_no_retry envUnavailable ["b1"] 0).2.2 ⟨["id1"], 2⟩
    (by decide) (by decide)

/-! ### Theorems for claim C10 -/

/-- Claim C10: the threshold is not caller-supplied — every `fetchKeys`
request the pipeline ever issues carries the constant threshold 2, every
encrypt request of `handleSend` carries the constant threshold 2, and
exactly two key servers are configured, so recovery always requires both
(2-of-2). -/
theorem threshold_always_two :
    (∀ (env : Env) (blobIds : List String) (urlBase : Nat),
      ∀ req ∈ (downloadAndDecrypt env blobIds urlBase).fetchTrace, req.threshold = 2) ∧
    (∀ packageId id data, (handleSendEncryptReq packageId id data).threshold = 2) ∧
    serverObjectIds.length = 2 := by
  refine ⟨?_, fun _ _ _ => rfl, rfl⟩
  intro env blobIds urlBase req hmem
  rcases downloadAndDecrypt_cases env blobIds urlBase with
    ⟨hve, heq⟩ | ⟨tr, msg, hve, hs2, heq⟩ | ⟨tr, files, dtr, hve, hs2, hs3, hfe, heq⟩ |
    ⟨tr, files, dtr, hve, hs2, hs3, hfe, heq⟩ | ⟨tr, created, dtr, msg, hve, hs2, hs3, heq⟩
  · rw [heq] at hmem; simp at hmem
  · rw [heq] at hmem
    exact (step2_fail_spec env _ _ _ hs2).2.1 req hmem
  · rw [heq] at hmem
    exact ((step2_ok_spec env _ _ hs2).2 req (by simpa using hmem)).1
  · rw [heq] at hmem
    exact ((step2_ok_spec env _ _ hs2).2 req (by simpa using hmem)).1
  · rw [heq] at hmem
    exact ((step2_ok_spec env _ _ hs2).2 req (by simpa using hmem)).1

/-- Witness for `threshold_always_two`: the request issued in the happy
environment carries threshold 2. -/
theorem threshold_always_two_witness :
    FetchKeysReq.threshold ⟨["id1", "id2"], 2⟩ = 2 :=
  threshold_always_two.1 envHappy ["b1", "b2"] 0 ⟨["id1", "id2"], 2⟩ (by decide)

/-! ### Theorems for claim C3 -/

/-- Claim C3: a background polling tick (`decryptChat(chatId, true)` as
scheduled by `startPolling`) never issues a signing prompt, whatever the
cache holds and whether or not the wallet would sign; and when no valid
cached session credential exists, the tick short-circuits — it returns
without running the download/decrypt pipeline, so no update happens. -/
theorem backgroundTick_never_prompts (cache : Option CacheEntry) (suiAddress : String)
    (signOk : Bool) :
    (backgroundTick cache suiAddress signOk).prompts = 0 ∧
    ((∀ e, cache = some e → cacheValid e suiAddress = false) →
      (backgroundTick cache suiAddress signOk).ranPipeline = false) := by
  constructor
  · cases cache with
    | none => rfl
    | some e =>
      by_cases h : cacheValid e suiAddress <;>
        simp [backgroundTick, resolveSessionKey, h]
  · intro hnv
    cases cache with
    | none => rfl
    | some e => simp [backgroundTick, resolveSessionKey, hnv e rfl]

/-- Witness for `backgroundTick_never_prompts`: a tick on an empty
credential cache. -/
theorem backgroundTick_never_prompts_witness :
    (backgroundTick none "0xholder" true).prompts = 0 ∧
    (backgroundTick none "0xholder" true).ranPipeline = false :=
  ⟨(backgroundTick_never_prompts none "0xholder" true).1,
   (backgroundTick_never_prompts none "0xholder" true).2 fun _ h => nomatch h⟩

/-! ### Theorems for claim C8 -/

/-- After any successful credential resolve, the persisted cache entry is
valid for the same holder and carries the returned key. -/
theorem resolve_success_cache (cache : Option CacheEntry) (suiAddress : String)
    (auto signOk : Bool) (k : SessionKeyM) :
    (resolveSessionKey cache suiAddress auto signOk).key = some k →
    ∃ e, (resolveSessionKey cache suiAddress auto signOk).cache = some e ∧
      cacheValid e suiAddress = true ∧ e.key = k := by
  intro hk
  cases cache with
  | none =>
    simp only [resolveSessionKey] at hk ⊢
    by_cases ha : auto = true
    · simp [ha] at hk
    · by_cases hs : signOk = true
      · simp only [ha, hs, if_false, if_true, Bool.false_eq_true] at hk ⊢
        simp at hk
        exact ⟨⟨true, ⟨suiAddress, false⟩⟩, rfl, by simp [cacheValid], hk⟩
      · simp [ha, hs] at hk
  | some e =>
    by_cases hv : cacheValid e suiAddress = true
    · simp only [resolveSessionKey, hv, if_true] at hk ⊢
      simp at hk
      exact ⟨e, rfl, hv, hk⟩
    · rw [Bool.not_eq_true] at hv
      simp only [resolveSessionKey, hv, Bool.false_eq_true, if_false] at hk ⊢
      by_cases ha : auto = true
      · simp [ha] at hk
      · by_cases hs : signOk = true
        · simp only [ha, hs, if_false, if_true, Bool.false_eq_true] at hk ⊢
          simp at hk
          exact ⟨⟨true, ⟨suiAddress, false⟩⟩, rfl, by simp [cacheValid], hk⟩
        · simp [ha, hs] at hk

/-- Claim C8: credential resolution is idempotent with respect to
prompting.  A cached entry that imports, is unexpired and matches the
active holder is returned as-is with zero signing prompts and an
untouched cache; and after any successful resolve, an immediate second
resolve for the same holder issues zero prompts and returns the same
key. -/
theorem resolveSessionKey_idempotent (cache : Option CacheEntry) (suiAddress : String)
    (auto1 signOk1 : Bool) :
    (∀ e, cache = some e → cacheValid e suiAddress = true →
      resolveSessionKey cache suiAddress auto1 signOk1 =
        ⟨some e.key, 0, some e, false⟩) ∧
    (∀ (k : SessionKeyM) (auto2 signOk2 : Bool),
      (resolveSessionKey cache suiAddress auto1 signOk1).key = some k →
      (resolveSessionKey (resolveSessionKey cache suiAddress auto1 signOk1).cache
          suiAddress auto2 signOk2).prompts = 0 ∧
      (resolveSessionKey (resolveSessionKey cache suiAddress auto1 signOk1).cache
          suiAddress auto2 signOk2).key = some k) := by
  constructor
  · intro e he hv
    subst he
    simp [resolveSessionKey, hv]
  · intro k auto2 signOk2 hk
    obtain ⟨e, hcache, hv, hek⟩ :=
      resolve_success_cache cache suiAddress auto1 signOk1 k hk
    rw [hcache]
    constructor
    · simp [resolveSessionKey, hv]
    · simp [resolveSessionKey, hv, hek]

/-- Witness for `resolveSessionKey_idempotent`: a valid cached entry is
returned without a prompt, and resolving again right after a resolve
stays prompt-free. -/
theorem resolveSessionKey_idempotent_witness :
    resolveSessionKey (some ⟨true, ⟨"0xholder", false⟩⟩) "0xholder" false true =
      ⟨some ⟨"0xholder", false⟩, 0, some ⟨true, ⟨"0xholder", false⟩⟩, false⟩ ∧
    (resolveSessionKey (resolveSessionKey (some ⟨true, ⟨"0xholder", false⟩⟩)
        "0xholder" false true).cache "0xholder" false true).prompts = 0 ∧
    (resolveSessionKey (resolveSessionKey (some ⟨true, ⟨"0xholder", false⟩⟩)
        "0xholder" false true).cache "0xholder" false true).key =
      some ⟨"0xholder", false⟩ := by
  refine ⟨?_, ?_, ?_⟩
  · exact (resolveSessionKey_idempotent (some ⟨true, ⟨"0xholder", false⟩⟩)
      "0xholder" false true).1 ⟨true, ⟨"0xholder", false⟩⟩ rfl (by decide)
  · exact ((resolveSessionKey_idempotent (some ⟨true, ⟨"0xholder", false⟩⟩)
      "0xholder" false true).2 ⟨"0xholder", false⟩ false true (by decide)).1
  · exact ((resolveSessionKey_idempotent (some ⟨true, ⟨"0xholder", false⟩⟩)
      "0xholder" false true).2 ⟨"0xholder", false⟩ false true (by decide)).2

/-! ### Theorems for claim C6 -/

/-- The comparator order is total. -/
theorem tsLe_total (a b : DecFile) : tsLe a b || tsLe b a := by
  obtain ⟨ua, ta⟩ := a
  obtain ⟨ub, tb⟩ := b
  cases ta <;> cases tb <;> simp [tsLe, tsCompare] <;> omega

/-- The comparator order is transitive. -/
theorem tsLe_trans (a b c : DecFile) : tsLe a b → tsLe b c → tsLe a c := by
  obtain ⟨ua, ta⟩ := a
  obtain ⟨ub, tb⟩ := b
  obtain ⟨uc, tc⟩ := c
  cases ta <;> cases tb <;> cases tc <;> simp [tsLe, tsCompare] <;> omega

/-- Claim C6: the sequence produced by the sort of `decryptChat` is a
permutation of the retrieved items, sorted by extracted timestamp
ascending; every item without a timestamp comes after all timestamped
items; and the items without timestamps keep their original retrieval
order. -/
theorem sortDecryptedFiles_spec (files : List DecFile) :
    (sortDecryptedFiles files).Perm files ∧
    (sortDecryptedFiles files).Pairwise
      (fun a b => ∀ ta tb, a.timestamp = some ta → b.timestamp = some tb → ta ≤ tb) ∧
    (sortDecryptedFiles files).Pairwise
      (fun a b => a.timestamp = none → b.timestamp = none) ∧
    (sortDecryptedFiles files).filter (fun f => f.timestamp.isNone) =
      files.filter (fun f => f.timestamp.isNone) := by
  have hperm : (sortDecryptedFiles files).Perm files := List.mergeSort_perm files tsLe
  have hsorted : (sortDecryptedFiles files).Pairwise (fun a b => tsLe a b) :=
    List.sorted_mergeSort (fun a b c => tsLe_trans a b c) (fun a b => tsLe_total a b) files
  refine ⟨hperm, ?_, ?_, ?_⟩
  · refine hsorted.imp ?_
    intro a b hab ta tb hta htb
    simp only [tsLe, hta, htb, tsCompare, decide_eq_true_eq] at hab
    omega
  · refine hsorted.imp ?_
    intro a b hab ha
    cases hb : b.timestamp with
    | none => rfl
    | some tb =>
      exfalso
      simp only [tsLe, ha, hb, tsCompare, decide_eq_true_eq] at hab
      omega
  · have hpair : (files.filter fun f => f.timestamp.isNone).Pairwise
        (fun a b => tsLe a b = true) := by
      apply List.pairwise_of_forall_mem_list
      intro a ha b hb
      have ha' := Option.isNone_iff_eq_none.mp (List.mem_filter.mp ha).2
      have hb' := Option.isNone_iff_eq_none.mp (List.mem_filter.mp hb).2
      simp [tsLe, tsCompare, ha', hb']
    have hsub : List.Sublist (files.filter fun f => f.timestamp.isNone)
        (sortDecryptedFiles files) :=
      List.sublist_mergeSort (fun a b c => tsLe_trans a b c) (fun a b => tsLe_total a b)
        hpair (List.filter_sublist files)
    have hsub2 : List.Sublist (files.filter fun f => f.timestamp.isNone)
        ((sortDecryptedFiles files).filter (fun f => f.timestamp.isNone)) := by
      have h2 := hsub.filter (fun f => f.timestamp.isNone)
      simpa [List.filter_filter] using h2
    have hlen : ((sortDecryptedFiles files).filter (fun f => f.timestamp.isNone)).length =
        (files.filter fun f => f.timestamp.isNone).length :=
      (hperm.filter _).length_eq
    exact (hsub2.eq_of_length hlen.symm).symm

/-! ### Theorems for claim C9 -/

/-- Every run creates consecutive fresh handles starting at its base. -/
theorem run_createdUrls_range (env : Env) (blobIds : List String) (urlBase : Nat) :
    (downloadAndDecrypt env blobIds urlBase).createdUrls =
      List.range' urlBase (downloadAndDecrypt env blobIds urlBase).createdUrls.length := by
  rcases downloadAndDecrypt_cases env blobIds urlBase with
    ⟨hve, heq⟩ | ⟨tr, msg, hve, hs2, heq⟩ | ⟨tr, files, dtr, hve, hs2, hs3, hfe, heq⟩ |
    ⟨tr, files, dtr, hve, hs2, hs3, hfe, heq⟩ | ⟨tr, created, dtr, msg, hve, hs2, hs3, heq⟩
  · rw [heq]; rfl
  · rw [heq]; rfl
  · rw [heq]; rfl
  · rw [heq]
    obtain ⟨-, -, -, hurls⟩ := step3_ok_spec env _ _ _ _ hs3
    simpa using hurls
  · rw [heq]
    exact step3_fail_spec env _ _ _ _ _ hs3

/-- A run that publishes nothing has revoked exactly what it created. -/
theorem run_pub_none_revoked (env : Env) (blobIds : List String) (urlBase : Nat) :
    (downloadAndDecrypt env blobIds urlBase).published = none →
    (downloadAndDecrypt env blobIds urlBase).revokedUrls =
      (downloadAndDecrypt env blobIds urlBase).createdUrls := by
  rcases downloadAndDecrypt_cases env blobIds urlBase with
    ⟨hve, heq⟩ | ⟨tr, msg, hve, hs2, heq⟩ | ⟨tr, files, dtr, hve, hs2, hs3, hfe, heq⟩ |
    ⟨tr, files, dtr, hve, hs2, hs3, hfe, heq⟩ | ⟨tr, created, dtr, msg, hve, hs2, hs3, heq⟩
  · rw [heq]; intro _; rfl
  · rw [heq]; intro _; rfl
  · rw [heq]; intro _; rfl
  · rw [heq]; intro h; simp at h
  · rw [heq]; intro _; rfl

/-- A run that publishes created exactly the published URLs and revoked
none of them. -/
theorem run_pub_some_urls (env : Env) (blobIds : List String) (urlBase : Nat)
    (files : List DecryptedFile) :
    (downloadAndDecrypt env blobIds urlBase).published = some files →
    (downloadAndDecrypt env blobIds urlBase).createdUrls = files.map (·.url) ∧
    (downloadAndDecrypt env blobIds urlBase).revokedUrls = [] := by
  rcases downloadAndDecrypt_cases env blobIds urlBase with
    ⟨hve, heq⟩ | ⟨tr, msg, hve, hs2, heq⟩ | ⟨tr, files', dtr, hve, hs2, hs3, hfe, heq⟩ |
    ⟨tr, files', dtr, hve, hs2, hs3, hfe, heq⟩ | ⟨tr, created, dtr, msg, hve, hs2, hs3, heq⟩
  · rw [heq]; intro h; simp at h
  · rw [heq]; intro h; simp at h
  · rw [heq]; intro h; simp at h
  · rw [heq]; intro h
    have : files' = files := by simpa using h
    subst this
    exact ⟨rfl, rfl⟩
  · rw [heq]; intro h; simp at h

/-- One recover call preserves handle-state well-formedness. -/
theorem applyRun_viewWF (st : ViewState) (env : Env) (blobIds : List String)
    (hwf : viewWF st) : viewWF (applyRun st env blobIds) := by
  obtain ⟨hout, hbound, hcount⟩ := hwf
  have hrange := run_createdUrls_range env blobIds st.nextUrl
  have hcreated : ∀ u ∈ (downloadAndDecrypt env blobIds st.nextUrl).createdUrls,
      st.nextUrl ≤ u ∧
        u < st.nextUrl + (downloadAndDecrypt env blobIds st.nextUrl).createdUrls.length := by
    intro u hu
    rw [hrange, List.mem_range'] at hu
    obtain ⟨i, hi, hiu⟩ := hu
    omega
  cases hpub : (downloadAndDecrypt env blobIds st.nextUrl).published with
  | none =>
    have hrev := run_pub_none_revoked env blobIds st.nextUrl hpub
    have h1 : st.tracked.filter
        (fun u => decide (u ∉ (downloadAndDecrypt env blobIds st.nextUrl).createdUrls)) =
        st.tracked :=
      List.filter_eq_self.mpr fun u hu => by
        simp only [decide_eq_true_eq]
        intro hcon
        have hx := (hcreated u hcon).1
        have hy := hbound u hu
        omega
    have h2 : (downloadAndDecrypt env blobIds st.nextUrl).createdUrls.filter
        (fun u => decide (u ∉ (downloadAndDecrypt env blobIds st.nextUrl).createdUrls)) =
        [] :=
      List.filter_eq_nil_iff.mpr fun u hu => by
        simp only [decide_eq_true_eq]
        exact fun hc => hc hu
    refine ⟨?_, ?_, ?_⟩
    · simp only [applyRun, hpub, hrev, hout, List.filter_append, h1, h2, List.append_nil]
    · simp only [applyRun, hpub]
      intro u hu
      have := hbound u hu
      omega
    · simp only [applyRun, hpub]
      exact hcount
  | some files =>
    obtain ⟨hcr, hrev⟩ := run_pub_some_urls env blobIds st.nextUrl files hpub
    have hmid : (st.outstanding ++ (downloadAndDecrypt env blobIds st.nextUrl).createdUrls).filter
        (fun u => decide (u ∉ (downloadAndDecrypt env blobIds st.nextUrl).revokedUrls)) =
        st.tracked ++ (downloadAndDecrypt env blobIds st.nextUrl).createdUrls := by
      rw [hout, hrev]
      exact List.filter_eq_self.mpr fun u _ => by simp
    have h1 : st.tracked.filter (fun u => decide (u ∉ st.tracked)) = [] :=
      List.filter_eq_nil_iff.mpr fun u hu => by
        simp only [decide_eq_true_eq]
        exact fun hc => hc hu
    have h2 : (downloadAndDecrypt env blobIds st.nextUrl).createdUrls.filter
        (fun u => decide (u ∉ st.tracked)) =
        (downloadAndDecrypt env blobIds st.nextUrl).createdUrls :=
      List.filter_eq_self.mpr fun u hu => by
        simp only [decide_eq_true_eq]
        intro hcon
        have hx := (hcreated u hu).1
        have hy := hbound u hcon
        omega
    refine ⟨?_, ?_, ?_⟩
    · simp only [applyRun, hpub, hmid, List.filter_append, h1, h2, List.nil_append]
      exact hcr
    · simp only [applyRun, hpub]
      intro u hu
      rw [← hcr] at hu
      have := hcreated u hu
      omega
    · simp only [applyRun, hpub]
      simp

/-- Claim C9: before a recover call for a room publishes a new set,
every object URL issued by the previous recover call is revoked (no
previously tracked handle survives a publishing run), and after two
consecutive recover calls the outstanding handle count never exceeds the
item count of the most recent successful call. -/
theorem recover_handle_hygiene (st : ViewState) (env1 env2 : Env)
    (ids1 ids2 : List String) (hwf : viewWF st) :
    ((downloadAndDecrypt env2 ids2 (applyRun st env1 ids1).nextUrl).published.isSome →
      ∀ u ∈ (applyRun st env1 ids1).tracked,
        u ∉ (applyRun (applyRun st env1 ids1) env2 ids2).outstanding) ∧
    (applyRun (applyRun st env1 ids1) env2 ids2).outstanding.length ≤
      (applyRun (applyRun st env1 ids1) env2 ids2).lastSuccessCount.getD 0 := by
  have hwf1 := applyRun_viewWF st env1 ids1 hwf
  have hwf2 := applyRun_viewWF (applyRun st env1 ids1) env2 ids2 hwf1
  constructor
  · generalize hst1 : applyRun st env1 ids1 = st1
    intro hpub u hu
    cases hp : (downloadAndDecrypt env2 ids2 st1.nextUrl).published with
    | none => rw [hp] at hpub; simp at hpub
    | some files =>
      simp only [applyRun, hp]
      intro hmem
      rw [List.mem_filter] at hmem
      have h2 := hmem.2
      simp only [decide_eq_true_eq] at h2
      exact h2 hu
  · obtain ⟨hout2, -, hcount2⟩ := hwf2
    rw [hout2]
    cases hls : (applyRun (applyRun st env1 ids1) env2 ids2).lastSuccessCount with
    | none =>
      simp only [hls] at hcount2
      simp [hcount2]
    | some n =>
      simp only [hls] at hcount2
      simp [hcount2]

/-- Witness for `recover_handle_hygiene`: two consecutive successful
recover calls starting from the initial (empty) handle state. -/
theorem recover_handle_hygiene_witness :
    (∀ u ∈ (applyRun ⟨[], [], none, 0⟩ envHappy ["b1", "b2"]).tracked,
      u ∉ (applyRun (applyRun ⟨[], [], none, 0⟩ envHappy ["b1", "b2"])
            envHappy ["b1"]).outstanding) ∧
    (applyRun (applyRun ⟨[], [], none, 0⟩ envHappy ["b1", "b2"])
        envHappy ["b1"]).outstanding.length ≤
      (applyRun (applyRun ⟨[], [], none, 0⟩ envHappy ["b1", "b2"])
        envHappy ["b1"]).lastSuccessCount.getD 0 := by
  have h := recover_handle_hygiene ⟨[], [], none, 0⟩ envHappy envHappy ["b1", "b2"] ["b1"]
    (by constructor <;> simp [viewWF])
  exact ⟨fun u hu => h.1 (by decide) u hu, h.2⟩

end SealMessage
